import Mathlib

/-!
A verification development for the WCInspector crawl-and-index pipeline.

The definitions below are shallow embeddings of the Python source:

* `backend/rag.py` — `chunk_text` (the Chunker) and the candidate-filtering
  loop of `search_similar_documents` (the Retriever);
* `backend/scraper.py` — `extract_section_topic`, the BFS crawl loop of
  `run_scrape` (frontier, visited set, change detection against the
  relational store);
* `backend/main.py` — the `start_scraper` endpoint guard.

Python strings are modelled as `List Char`; Python indices that may go
negative (slice positions, `str.rfind` arguments) are modelled as `Int`
with the CPython normalization rules made explicit.  Loops that the
source runs unboundedly are modelled with an explicit fuel argument, and
termination claims are stated as "a concretely computed fuel suffices".
-/

namespace WCInspector

/-! ### Python string primitives -/

/-- CPython normalization of a (possibly negative) slice index against a
string of length `n`: negative indices count from the end and are clamped
to `0`, nonnegative ones are clamped to `n`. -/
def pyNorm (n : Nat) (i : Int) : Nat :=
  if i < 0 then ((n : Int) + i).toNat else min i.toNat n

/-- Python `text[a:b]` on a `List Char`, with CPython index normalization. -/
def pySlice (t : List Char) (a b : Int) : List Char :=
  (t.take (pyNorm t.length b)).drop (pyNorm t.length a)

/-- Is there an occurrence of the two-character pattern `". "` at absolute
position `i` of `t`? -/
def dotSpaceAt (t : List Char) (i : Nat) : Bool :=
  match t.drop i with
  | '.' :: ' ' :: _ => true
  | _ => false

/-- Python `text.rfind('. ', a, b)`: the largest absolute index `i` with
`a' ≤ i`, `i + 2 ≤ b'` (`a'`, `b'` the normalized bounds) at which `". "`
occurs, or `-1` when there is none. -/
def pyRfindDotSpace (t : List Char) (a b : Int) : Int :=
  let lo := pyNorm t.length a
  let hi := pyNorm t.length b
  match ((List.range t.length).filter
      (fun i => decide (lo ≤ i) && decide (i + 2 ≤ hi) && dotSpaceAt t i)).getLast? with
  | some i => (i : Int)
  | none => -1

/-- Python `str.strip()`: drop leading and trailing whitespace. -/
def pyStrip (t : List Char) : List Char :=
  ((t.dropWhile Char.isWhitespace).reverse.dropWhile Char.isWhitespace).reverse

/-! ### Chunker (`backend/rag.py`, `chunk_text`, lines 29-53)

One loop iteration of `chunk_text` computes the window end `end`
(with the up-to-100-character sentence-boundary backtrack) and then sets
`start = end - overlap`.  `chunkEnd` is that end computation, and
`chunkTextAux` is the loop with an explicit fuel bound on the number of
iterations. -/

/-- The window-end computation of one `chunk_text` iteration
(lines 38-45 of `rag.py`). -/
def chunkEnd (t : List Char) (chunk_size : Nat) (start : Int) : Int :=
  let end0 := start + (chunk_size : Int)
  if end0 < (t.length : Int) then
    let searchStart := max (end0 - 100) start
    let lastPeriod := pyRfindDotSpace t searchStart end0
    if searchStart < lastPeriod then lastPeriod + 1 else end0
  else end0

/-- The next value of `start` after one `chunk_text` loop iteration
(line 51 of `rag.py`: `start = end - overlap`). -/
def chunkNextStart (t : List Char) (chunk_size overlap : Nat) (start : Int) : Int :=
  chunkEnd t chunk_size start - (overlap : Int)

/-- The `while start < len(text)` loop of `chunk_text`, with fuel
bounding the number of iterations (`none` = the loop did not finish
within the given fuel). -/
def chunkTextAux (t : List Char) (chunk_size overlap : Nat) :
    Nat → Int → List (List Char) → Option (List (List Char))
  | fuel, start, acc =>
    if start < (t.length : Int) then
      match fuel with
      | 0 => none
      | fuel + 1 =>
        let e := chunkEnd t chunk_size start
        let chunk := pyStrip (pySlice t start e)
        chunkTextAux t chunk_size overlap fuel (e - (overlap : Int))
          (if chunk = [] then acc else acc ++ [chunk])
    else some acc

/-- Function `chunk_text(text, chunk_size, overlap)` (lines 29-53 of `rag.py`).
The fuel `t.length + 1` is enough whenever the loop makes progress of at
least one position per iteration. -/
def chunkText (t : List Char) (chunk_size overlap : Nat) :
    Option (List (List Char)) :=
  if t.length ≤ chunk_size then some [t]
  else chunkTextAux t chunk_size overlap (t.length + 1) 0 []

/-! #### Chunker lemmas -/

/-- The sentence-boundary backtrack of `chunk_text` moves the window end
at most 98 positions before `start + chunk_size`: the backtrack searches
in `[end-100, end)` and only fires strictly after the search start. -/
theorem chunkEnd_lower_bound (t : List Char) (chunk_size : Nat) (start : Int) :
    start + (chunk_size : Int) - 98 ≤ chunkEnd t chunk_size start := by
  unfold chunkEnd
  dsimp only
  split
  · split
    · have h1 : start + (chunk_size : Int) - 100 ≤ max (start + (chunk_size : Int) - 100) start :=
        le_max_left _ _
      omega
    · omega
  · omega

/-- When `overlap + 98 < chunk_size`, each `chunk_text` iteration strictly
increases `start`. -/
theorem chunkNextStart_progress (t : List Char) (chunk_size overlap : Nat)
    (h : overlap + 98 < chunk_size) (start : Int) :
    start < chunkNextStart t chunk_size overlap start := by
  have h1 := chunkEnd_lower_bound t chunk_size start
  unfold chunkNextStart
  omega

/-- When `overlap + 98 < chunk_size`, fuel covering the remaining length
makes the `chunk_text` loop finish. -/
theorem chunkTextAux_isSome (t : List Char) (chunk_size overlap : Nat)
    (h : overlap + 98 < chunk_size) :
    ∀ (fuel : Nat) (start : Int) (acc : List (List Char)),
      (t.length : Int) ≤ start + fuel →
      (chunkTextAux t chunk_size overlap fuel start acc).isSome = true := by
  intro fuel
  induction fuel with
  | zero =>
    intro start acc hle
    unfold chunkTextAux
    rw [if_neg (by omega)]
    rfl
  | succ n ih =>
    intro start acc hle
    unfold chunkTextAux
    split
    · have hp := chunkNextStart_progress t chunk_size overlap h start
      unfold chunkNextStart at hp
      exact ih _ _ (by omega)
    · rfl

set_option maxRecDepth 40000

/-- A text of length 201 whose only sentence boundary sits 99 characters
before the first window end: 101 `a`s, then `". "`, then 98 `b`s. -/
def c2Text : List Char :=
  List.replicate 101 'a' ++ ['.', ' '] ++ List.replicate 98 'b'

/-- C2, counterexample: with `chunk_size = 200` and `overlap = 150` the
parameters satisfy `overlap < chunk_size`, yet on `c2Text` the first loop
iteration of `chunk_text` moves the window start from `0` to `-48` — the
start does not strictly increase, so `overlap < chunk_size` alone does
not guarantee forward progress. -/
theorem chunk_text_progress_counterexample :
    150 < 200 ∧ chunkNextStart c2Text 200 150 0 = -48 := by
  exact ⟨by decide, by decide⟩

/-- C2 (amended): for every input text and parameters with
`overlap + 98 < chunk_size` (in particular for the defaults
`chunk_size = 1500`, `overlap = 300`), every `chunk_text` loop iteration
strictly increases the window start — even when the sentence-boundary
backtrack of up to 100 characters moves the window end earlier — and the
loop therefore terminates within `len(text) + 1` iterations. -/
theorem chunk_text_forward_progress_amended (t : List Char)
    (chunk_size overlap : Nat) (h : overlap + 98 < chunk_size) :
    (∀ start : Int, start < chunkNextStart t chunk_size overlap start) ∧
    (chunkText t chunk_size overlap).isSome = true := by
  refine ⟨chunkNextStart_progress t chunk_size overlap h, ?_⟩
  unfold chunkText
  split
  · rfl
  · exact chunkTextAux_isSome t chunk_size overlap h _ 0 [] (by push_cast; omega)

/-- Witness for C2 (amended), at the default parameters 1500/300. -/
theorem chunk_text_forward_progress_amended_witness :
    ((0 : Int) < chunkNextStart c2Text 1500 300 0) ∧
    (chunkText c2Text 1500 300).isSome = true :=
  ⟨(chunk_text_forward_progress_amended c2Text 1500 300 (by decide)).1 0,
   (chunk_text_forward_progress_amended c2Text 1500 300 (by decide)).2⟩

/-- C8: for every text whose length is at most the chunk size,
`chunk_text` returns exactly one chunk, and that chunk is the input text
itself (lines 31-32 of `rag.py`). -/
theorem chunk_text_short_input (t : List Char) (chunk_size overlap : Nat)
    (h : t.length ≤ chunk_size) :
    chunkText t chunk_size overlap = some [t] := by
  unfold chunkText
  rw [if_pos h]

/-- Witness for C8 on a concrete short text at the default parameters. -/
theorem chunk_text_short_input_witness :
    chunkText "hello world".data 1500 300 = some ["hello world".data] :=
  chunk_text_short_input "hello world".data 1500 300 (by decide)

/-! ### Retriever (`backend/rag.py`, `search_similar_documents`, lines 271-376)

The vector index (`collection.query`) is an external collaborator; the
embedding models what the retriever itself computes: the over-fetch size
passed as `n_results` to the index (lines 282-287), and the
post-filter/diversity loop over the returned candidates (lines 312-364).
A `Candidate` holds the metadata of one raw index result after the
`metadata.get(...)` defaulting. -/

/-- Python truthiness of an optional string parameter (`None` and `""`
are falsy). -/
def pyTruthy (o : Option String) : Bool :=
  match o with
  | none => false
  | some s => decide (s ≠ "")

/-- The `n_results` over-fetch passed to the vector index (lines 282-287
of `rag.py`): `n_results * 3` when `topic_filter or category` is truthy,
else `n_results * 2`. -/
def requestedNResults (n_results : Nat) (topic_filter category : Option String) : Nat :=
  if pyTruthy topic_filter || pyTruthy category then n_results * 3 else n_results * 2

/-- Starts-with check on character lists: does `hay` start
with `needle`? -/
def startsWithL : List Char → List Char → Bool
  | _, [] => true
  | [], _ :: _ => false
  | c :: cs, p :: ps => c == p && startsWithL cs ps

/-- Python `needle in hay` substring containment on character lists. -/
def hasSubL : List Char → List Char → Bool
  | [], needle => needle.isEmpty
  | c :: rest, needle => startsWithL (c :: rest) needle || hasSubL rest needle

/-- Python `needle in hay` on strings. -/
def strHasSub (hay needle : String) : Bool :=
  hasSubL hay.data needle.data

/-- Python `url.lower()`: character-wise lowercasing (the URLs involved are
ASCII, where Python and ASCII lowercasing agree). -/
def strToLower (s : String) : String :=
  String.mk (s.data.map Char.toLower)

/-- One raw candidate from the vector index, after metadata defaulting:
string metadata is read with `metadata.get(key, "")`, while `chunk_type`
is kept as the raw optional value (line 352 defaults it to `"text"`,
line 355 compares the raw value against `"image"`). -/
structure Candidate where
  document : String
  url : String
  title : String
  sectionName : String
  topic : String
  category : String
  chunkType : Option String
  imageUrl : String
  imageAlt : String
  imageCaption : String
deriving DecidableEq

/-- One entry of the returned `documents` list (lines 345-358 of
`rag.py`); the image fields are present only for image chunks. -/
structure DocEntry where
  content : String
  url : String
  title : String
  sectionName : String
  topic : String
  category : String
  chunkType : String
  imageUrl : Option String
  imageAlt : Option String
  imageCaption : Option String
deriving DecidableEq

/-- Build the result entry for an accepted candidate (lines 345-358). -/
def mkDocEntry (c : Candidate) : DocEntry :=
  { content := c.document
    url := c.url
    title := c.title
    sectionName := c.sectionName
    topic := c.topic
    category := c.category
    chunkType := c.chunkType.getD "text"
    imageUrl := if c.chunkType = some "image" then some c.imageUrl else none
    imageAlt := if c.chunkType = some "image" then some c.imageAlt else none
    imageCaption := if c.chunkType = some "image" then some c.imageCaption else none }

/-- The category-metadata comparison of the defensive post-filter
(lines 325-328): skip when `doc_category` is truthy and differs from the
filter. -/
def catMetaDrop (filt docCategory : String) : Bool :=
  decide (docCategory ≠ "") && decide (docCategory ≠ filt)

/-- The coarse URL-substring heuristic of the post-filter
(lines 329-334). -/
def catUrlDrop (filt url : String) : Bool :=
  let ul := strToLower url
  (decide (filt = "windchill") && strHasSub ul "creo" && !(strHasSub ul "windchill")) ||
  (decide (filt = "creo") && strHasSub ul "windchill" && !(strHasSub ul "creo"))

/-- The whole category post-filter (lines 325-334), applied only when the
`category` parameter is truthy. -/
def categoryDrop (category : Option String) (c : Candidate) : Bool :=
  match category with
  | none => false
  | some filt => decide (filt ≠ "") && (catMetaDrop filt c.category || catUrlDrop filt c.url)

/-- The topic post-filter (lines 336-337). -/
def topicDrop (topic_filter : Option String) (docTopic : String) : Bool :=
  match topic_filter with
  | none => false
  | some t => decide (t ≠ "") && decide (docTopic ≠ "") && decide (docTopic ≠ t)

/-- Increment the per-URL counter (`url_counts[url] = url_counts.get(url, 0) + 1`). -/
def bumpCounts (counts : String → Nat) (url : String) : String → Nat :=
  fun u => if u = url then counts u + 1 else counts u

/-- The candidate-filtering loop of `search_similar_documents`
(lines 316-364 of `rag.py`): category post-filter, topic post-filter,
per-URL diversity counter with cap 2 (the counter is touched only for
non-empty URLs), append, and break once `n_results` entries are
collected. -/
def selectDocs (category topic_filter : Option String) (n_results : Nat) :
    List Candidate → (String → Nat) → List DocEntry → List DocEntry
  | [], _, acc => acc
  | c :: rest, counts, acc =>
    if categoryDrop category c then
      selectDocs category topic_filter n_results rest counts acc
    else if topicDrop topic_filter c.topic then
      selectDocs category topic_filter n_results rest counts acc
    else
      let counts' := if c.url ≠ "" then bumpCounts counts c.url else counts
      if c.url ≠ "" ∧ 2 < counts' c.url then
        selectDocs category topic_filter n_results rest counts' acc
      else
        let acc' := acc ++ [mkDocEntry c]
        if n_results ≤ acc'.length then acc'
        else selectDocs category topic_filter n_results rest counts' acc'

/-- The post-query part of `search_similar_documents`: run the filtering
loop on the index's candidates with fresh counters and an empty result
list. -/
def searchSelect (category topic_filter : Option String) (n_results : Nat)
    (cands : List Candidate) : List DocEntry :=
  selectDocs category topic_filter n_results cands (fun _ => 0) []

/-! #### Retriever lemmas -/

/-- The per-URL counter never decreases when bumped. -/
theorem bumpCounts_ge (counts : String → Nat) (url u : String) :
    counts u ≤ bumpCounts counts url u := by
  unfold bumpCounts
  split <;> omega

/-- The result entry keeps the candidate's source URL. -/
theorem mkDocEntry_url (c : Candidate) : (mkDocEntry c).url = c.url := rfl

/-- Loop invariant of the diversity filter: if the accepted entries with
a given non-empty URL are bounded by `min (counts u) 2`, the final result
holds at most 2 entries with that URL. -/
theorem selectDocs_countP_le (category topic_filter : Option String) (n : Nat)
    (u : String) (hu : u ≠ "") :
    ∀ (cands : List Candidate) (counts : String → Nat) (acc : List DocEntry),
      acc.countP (fun d => decide (d.url = u)) ≤ min (counts u) 2 →
      (selectDocs category topic_filter n cands counts acc).countP
        (fun d => decide (d.url = u)) ≤ 2 := by
  intro cands
  induction cands with
  | nil =>
    intro counts acc hinv
    simp only [selectDocs]
    omega
  | cons c rest ih =>
    intro counts acc hinv
    simp only [selectDocs]
    split
    · exact ih counts acc hinv
    · split
      · exact ih counts acc hinv
      · set counts' := if c.url ≠ "" then bumpCounts counts c.url else counts with hc'
        have hmono : counts u ≤ counts' u := by
          rw [hc']
          split
          · exact bumpCounts_ge counts c.url u
          · omega
        split
        · -- diversity cap reached: skip, counter already bumped
          exact ih counts' acc (by omega)
        · -- accept the candidate
          rename_i hcap
          have hcnt : (acc ++ [mkDocEntry c]).countP (fun d => decide (d.url = u)) ≤
              min (counts' u) 2 := by
            rw [List.countP_append]
            by_cases hurl : c.url = u
            · have h1 : counts' u = counts u + 1 := by
                rw [hc', if_pos (by rw [hurl]; exact hu), hurl]
                unfold bumpCounts
                simp
              have h2 : ¬ 2 < counts' c.url := fun hlt =>
                hcap ⟨by rw [hurl]; exact hu, hlt⟩
              rw [hurl] at h2
              have h3 : [mkDocEntry c].countP (fun d => decide (d.url = u)) = 1 := by
                simp [List.countP, List.countP.go, mkDocEntry_url, hurl]
              omega
            · have h3 : [mkDocEntry c].countP (fun d => decide (d.url = u)) = 0 := by
                simp [List.countP, List.countP.go, mkDocEntry_url, hurl]
              omega
          split
          · omega
          · exact ih counts' (acc ++ [mkDocEntry c]) hcnt

/-- A candidate result with an empty source URL (as stored by the
`metadata.get("url", "")` defaulting). -/
def c3EmptyUrlCand : Candidate :=
  { document := "chunk text", url := "", title := "", sectionName := "",
    topic := "", category := "", chunkType := none,
    imageUrl := "", imageAlt := "", imageCaption := "" }

/-- A candidate result whose chunks all come from one non-empty URL. -/
def c3UrlCand : Candidate :=
  { document := "chunk text", url := "https://u", title := "", sectionName := "",
    topic := "", category := "", chunkType := none,
    imageUrl := "", imageAlt := "", imageCaption := "" }

/-- C3, counterexample: the diversity counter is only maintained for
truthy (non-empty) URLs, so three candidates whose `url` metadata is the
empty string are all returned — three entries of the result share the
source URL `""`, contradicting the claim's universal "at most 2 entries
share any one source URL". -/
theorem source_diversity_counterexample :
    (searchSelect none none 10 [c3EmptyUrlCand, c3EmptyUrlCand, c3EmptyUrlCand]).countP
      (fun d => decide (d.url = "")) = 3 := by
  decide

/-- C3 (amended): for every query and candidate list, at most 2 returned
entries share any one non-empty source URL (candidates with empty `url`
metadata bypass the per-URL counter); in particular a `k = 10` query
against an index where 20 chunks share one real source URL returns at
most 2 chunks from that URL. -/
theorem source_diversity_cap_amended (category topic_filter : Option String)
    (n : Nat) (cands : List Candidate) (u : String) (hu : u ≠ "") :
    (searchSelect category topic_filter n cands).countP
      (fun d => decide (d.url = u)) ≤ 2 := by
  unfold searchSelect
  exact selectDocs_countP_le category topic_filter n u hu cands (fun _ => 0) [] (by simp)

/-- Witness for C3 (amended): `k = 10` against 20 chunks sharing the URL
`"https://u"`. -/
theorem source_diversity_cap_amended_witness :
    (searchSelect none none 10 (List.replicate 20 c3UrlCand)).countP
      (fun d => decide (d.url = "https://u")) ≤ 2 :=
  source_diversity_cap_amended none none 10 (List.replicate 20 c3UrlCand)
    "https://u" (by decide)

/-- C1, counterexample: with `k = 5` and exactly one filter set (a topic
filter, no category filter), the retriever requests `15 = 3k` candidates
from the vector index, not `2k = 10` as the claim states for the
one-filter case. -/
theorem overfetch_counterexample :
    requestedNResults 5 (some "install") none = 15 ∧
    requestedNResults 5 (some "install") none ≠ 10 := by
  exact ⟨rfl, by decide⟩

/-- C1 (amended): the retriever requests `3k` candidates whenever at
least one of the topic filter and the category filter is truthy — in
particular also when exactly one of them is set — and `2k` only when
neither is set. -/
theorem overfetch_amended (n : Nat) (topic_filter category : Option String) :
    (pyTruthy topic_filter = true ∨ pyTruthy category = true →
      requestedNResults n topic_filter category = n * 3) ∧
    (pyTruthy topic_filter = false ∧ pyTruthy category = false →
      requestedNResults n topic_filter category = n * 2) := by
  unfold requestedNResults
  constructor
  · intro h
    rcases h with h | h <;> simp [h]
  · rintro ⟨h1, h2⟩
    simp [h1, h2]

/-- Witness for C1 (amended) with exactly one truthy filter. -/
theorem overfetch_amended_witness :
    requestedNResults 5 (some "install") none = 5 * 3 :=
  (overfetch_amended 5 (some "install") none).1 (Or.inl (by decide))

/-- A candidate whose `category` metadata is the empty string but whose
URL belongs to the requested category. -/
def c10Cand : Candidate :=
  { document := "d", url := "https://w/windchill/x", title := "",
    sectionName := "", topic := "t", category := "", chunkType := none,
    imageUrl := "", imageAlt := "", imageCaption := "" }

/-- C10: the defensive category post-filter's metadata comparison drops a
candidate only if its `category` metadata is non-empty and differs from
the filter; a candidate whose `category` metadata is the empty string is
never dropped by that check, and consequently a search with a category
filter can return an entry whose `category` is `""` rather than the
requested value. -/
theorem category_postfilter_empty_passes (filt docCat : String) (h : docCat = "") :
    catMetaDrop filt docCat = false ∧
    (∀ f dc, catMetaDrop f dc = true → dc ≠ "" ∧ dc ≠ f) ∧
    (searchSelect (some "windchill") none 5 [c10Cand]).map DocEntry.category = [""] := by
  refine ⟨?_, ?_, ?_⟩
  · subst h
    unfold catMetaDrop
    simp
  · intro f dc hd
    unfold catMetaDrop at hd
    simpa using hd
  · decide

/-- Witness for C10, at the concrete filter `"windchill"`. -/
theorem category_postfilter_empty_passes_witness :
    catMetaDrop "windchill" "" = false :=
  (category_postfilter_empty_passes "windchill" "" rfl).1

/-! ### Page Extractor (`backend/scraper.py`, `extract_section_topic`,
lines 312-354)

`urlparse` and `path.split('/')` are Python stdlib; the embedding takes
the list of non-empty path segments (`path_parts`) produced by them.
`splitPathSegments` reproduces the `split('/')`-and-filter step for
concrete paths. -/

/-- Python `s.replace(pat, rep)`: left-to-right non-overlapping
replacement of every occurrence.  The fuel argument (one unit per scanned
position) makes the recursion structural; `replaceL` supplies fuel
`s.length`, which always suffices because every step consumes at least
one character.  (For the empty pattern — never used by the source — this
returns `s` unchanged.) -/
def replaceLAux (pat rep : List Char) : List Char → Nat → List Char
  | s, 0 => s
  | s, fuel + 1 =>
    match s with
    | [] => []
    | c :: rest =>
      if pat ≠ [] ∧ startsWithL (c :: rest) pat = true then
        rep ++ replaceLAux pat rep ((c :: rest).drop pat.length) fuel
      else
        c :: replaceLAux pat rep rest fuel

/-- Python `s.replace(pat, rep)` on character lists. -/
def replaceL (pat rep s : List Char) : List Char :=
  replaceLAux pat rep s s.length

/-- Python `s.replace(pat, rep)` on strings. -/
def strReplace (s pat rep : String) : String :=
  String.mk (replaceL pat.data rep.data s.data)

/-- Line 348 of `scraper.py`: strip `'.html'` then `'.htm'` occurrences
from the fallback topic segment. -/
def stripExtensions (s : String) : String :=
  strReplace (strReplace s ".html" "") ".htm" ""

/-- Lines 351-352 of `scraper.py`: the final cleanup applied to both
`section` and `topic` — strip `'.html'`, then `'.htm'`, then turn
underscores into spaces. -/
def cleanSegment (s : String) : String :=
  strReplace (strReplace (strReplace s ".html" "") ".htm" "") "_" " "

/-- Python `path.split('/')`: cut at every slash, keeping empty pieces. -/
def splitSlashAux : List Char → List Char → List String
  | [], cur => [String.mk cur.reverse]
  | c :: rest, cur =>
    if c = '/' then String.mk cur.reverse :: splitSlashAux rest []
    else splitSlashAux rest (c :: cur)

/-- The non-empty path segments of a URL path:
`[p for p in parsed.path.split('/') if p]` (line 315). -/
def splitPathSegments (path : String) : List String :=
  (splitSlashAux path.data []).filter (fun s => s ≠ "")

/-- Function `extract_section_topic` (lines 312-354 of `scraper.py`), as a
function of the URL's non-empty path segments.  The Windchill branch
keys on a `'windchill'` segment and the `'en'` locale marker, the Creo
branch on a `'creo'` segment and the `'usascii'` marker (a missing
marker raises `ValueError`, caught to leave the defaults); other URL
shapes use the last two segments, but only when there are more than 4
segments. -/
def extractSectionTopic (path_parts : List String) : String × String :=
  let st :=
    if "windchill" ∈ path_parts then
      match path_parts.findIdx? (fun p => p = "en") with
      | some en_idx =>
        ((if en_idx + 1 < path_parts.length then path_parts.getD (en_idx + 1) "General"
          else "General"),
         (if en_idx + 2 < path_parts.length then path_parts.getD (en_idx + 2) "Documentation"
          else "Documentation"))
      | none => ("General", "Documentation")
    else if "creo" ∈ path_parts then
      match path_parts.findIdx? (fun p => p = "usascii") with
      | some locale_idx =>
        ((if locale_idx + 1 < path_parts.length then path_parts.getD (locale_idx + 1) "General"
          else "General"),
         (if locale_idx + 2 < path_parts.length then path_parts.getD (locale_idx + 2) "Documentation"
          else "Documentation"))
      | none => ("General", "Documentation")
    else
      if 4 < path_parts.length then
        ((if 1 < path_parts.length then path_parts.getD (path_parts.length - 2) "General"
          else "General"),
         stripExtensions (path_parts.getD (path_parts.length - 1) "Documentation"))
      else ("General", "Documentation")
  (cleanSegment st.1, cleanSegment st.2)

/-- C7, counterexample: the URL path `/docs/en/bom/create.html` contains
neither the Windchill nor the Creo marker segment and has only 4 path
segments, so `extract_section_topic` does not fall back to the last two
segments: it returns the defaults `("General", "Documentation")` instead
of `("bom", "create")`. -/
theorem section_topic_fallback_counterexample :
    extractSectionTopic (splitPathSegments "/docs/en/bom/create.html") =
      ("General", "Documentation") ∧
    extractSectionTopic (splitPathSegments "/docs/en/bom/create.html") ≠
      ("bom", "create") := by
  exact ⟨by decide, by decide⟩

/-- C7 (amended): for every URL whose path contains neither a
`'windchill'` nor a `'creo'` segment **and has more than 4 non-empty
path segments**, `extract_section_topic` returns the second-to-last
segment as section and the last segment as topic, each with `'.html'`
and `'.htm'` occurrences removed and underscores replaced by spaces
(the topic segment additionally has its extensions stripped once more
by the fallback itself). With 4 or fewer segments the fallback is not
taken and `("General", "Documentation")` is returned. -/
theorem section_topic_fallback_amended (parts : List String)
    (hw : "windchill" ∉ parts) (hc : "creo" ∉ parts) (hlen : 4 < parts.length) :
    extractSectionTopic parts =
      (cleanSegment (parts.getD (parts.length - 2) "General"),
       cleanSegment (stripExtensions (parts.getD (parts.length - 1) "Documentation"))) := by
  unfold extractSectionTopic
  simp only [if_neg hw, if_neg hc, if_pos hlen,
    if_pos (show 1 < parts.length by omega)]

/-- Witness for C7 (amended) on a concrete 5-segment path. -/
theorem section_topic_fallback_amended_witness :
    extractSectionTopic ["a", "b", "c", "d", "e_f.html"] =
      (cleanSegment (["a", "b", "c", "d", "e_f.html"].getD 3 "General"),
       cleanSegment (stripExtensions (["a", "b", "c", "d", "e_f.html"].getD 4 "Documentation"))) :=
  section_topic_fallback_amended ["a", "b", "c", "d", "e_f.html"]
    (by decide) (by decide) (by decide)

/-! ### Crawl frontier (`backend/scraper.py`, `run_scrape`, lines 648-736)

The BFS loop state is the frontier queue and the visited set (a list
used only through membership).  Fetching and extraction are the external
collaborators; they are abstracted as `fetchLinks : String → Option (List String)`
— `none` models a failed fetch (`scrape_page` returned `None`: no store
write, no link discovery), `some links` the outbound links of a
successfully fetched page.  One loop iteration is `crawlStep`; the whole
loop is `crawlAux` with an explicit fuel bound on the number of
iterations. -/

/-- The link-enqueueing loop (lines 725-727 of `run_scrape`; the thread
harvesting loop at lines 492-494 of `run_community_scrape` applies the
identical filter): append each link that is neither in the visited set
nor already in the queue. -/
def enqueueLinks (visited : List String) (queue : List String)
    (links : List String) : List String :=
  links.foldl (fun q l => if l ∉ visited ∧ l ∉ q then q ++ [l] else q) queue

/-- One iteration of the `while queue and len(visited) < max_pages` loop
(lines 656-734): `.inr v` means the loop exits with visited set `v`,
`.inl s` means another iteration with state `s`. -/
def crawlStep (fetchLinks : String → Option (List String)) (max_pages : Nat) :
    List String × List String → (List String × List String) ⊕ List String
  | (queue, visited) =>
    match queue with
    | [] => .inr visited
    | url :: rest =>
      if visited.length < max_pages then
        if url ∈ visited then .inl (rest, visited)
        else
          let visited' := url :: visited
          match fetchLinks url with
          | some links => .inl (enqueueLinks visited' rest links, visited')
          | none => .inl (rest, visited')
      else .inr visited

/-- The crawl loop with fuel bounding the number of iterations (`none` =
the loop did not exit within the given fuel). -/
def crawlAux (fetchLinks : String → Option (List String)) (max_pages : Nat) :
    Nat → List String × List String → Option (List String)
  | 0, _ => none
  | fuel + 1, s =>
    match crawlStep fetchLinks max_pages s with
    | .inr v => some v
    | .inl s' => crawlAux fetchLinks max_pages fuel s'

/-- The decreasing measure of the crawl loop over a finite URL universe
`U`: unvisited URLs weigh `2 +` their out-degree, plus the queue length. -/
def crawlMeasure (fetchLinks : String → Option (List String)) (U : List String)
    (queue visited : List String) : Nat :=
  ((U.filter (fun u => u ∉ visited)).map
    (fun u => 2 + ((fetchLinks u).getD []).length)).sum + queue.length

/-- Fuel that provably suffices for the crawl loop over a finite,
link-closed URL universe `U`. -/
def crawlFuel (fetchLinks : String → Option (List String)) (U : List String) : Nat :=
  (U.map (fun u => 2 + ((fetchLinks u).getD []).length)).sum + 2

/-! #### Frontier lemmas -/

/-- Enqueueing adds at most one queue slot per discovered link. -/
theorem enqueueLinks_length (visited : List String) (links : List String) :
    ∀ queue : List String,
      (enqueueLinks visited queue links).length ≤ queue.length + links.length := by
  induction links with
  | nil => intro q; simp [enqueueLinks]
  | cons l ls ih =>
    intro q
    simp only [enqueueLinks, List.foldl_cons] at ih ⊢
    split
    · have h := ih (q ++ [l])
      simp only [List.length_append, List.length_cons, List.length_nil] at h ⊢
      omega
    · have h := ih q
      simp only [List.length_cons]
      omega

/-- Everything in the enqueued queue was already queued or is a
discovered link. -/
theorem enqueueLinks_mem (visited : List String) (links : List String) :
    ∀ (queue : List String) (x : String),
      x ∈ enqueueLinks visited queue links → x ∈ queue ∨ x ∈ links := by
  induction links with
  | nil =>
    intro q x h
    simp only [enqueueLinks, List.foldl_nil] at h
    exact Or.inl h
  | cons l ls ih =>
    intro q x h
    simp only [enqueueLinks, List.foldl_cons] at h
    split at h
    · rcases ih _ x h with h1 | h1
      · rcases List.mem_append.mp h1 with h2 | h2
        · exact Or.inl h2
        · exact Or.inr (by simp_all)
      · exact Or.inr (List.mem_cons_of_mem _ h1)
    · rcases ih _ x h with h1 | h1
      · exact Or.inl h1
      · exact Or.inr (List.mem_cons_of_mem _ h1)

/-- The enqueue filter keeps the queue duplicate-free and disjoint from
the visited set. -/
theorem enqueueLinks_nodup_disjoint (visited : List String) (links : List String) :
    ∀ queue : List String, queue.Nodup → (∀ u ∈ visited, u ∉ queue) →
      (enqueueLinks visited queue links).Nodup ∧
      (∀ u ∈ visited, u ∉ enqueueLinks visited queue links) := by
  induction links with
  | nil =>
    intro q h1 h2
    simpa [enqueueLinks] using ⟨h1, h2⟩
  | cons l ls ih =>
    intro q h1 h2
    simp only [enqueueLinks, List.foldl_cons] at ih ⊢
    split
    · rename_i hcond
      apply ih
      · rw [List.nodup_append]
        refine ⟨h1, List.nodup_singleton l, ?_⟩
        intro x hx hxl
        rw [List.mem_singleton] at hxl
        exact hcond.2 (hxl ▸ hx)
      · intro u hu hmem
        rcases List.mem_append.mp hmem with h | h
        · exact h2 u hu h
        · rw [List.mem_singleton] at h
          exact hcond.1 (h ▸ hu)
    · exact ih q h1 h2

/-- C5: the frontier never enqueues a URL already in the visited set or
already present in the queue: the enqueue loop (lines 725-727 of
`run_scrape`; the identical filter guards lines 492-494 of
`run_community_scrape`) keeps the queue duplicate-free and disjoint from
the visited set, and one full crawl iteration preserves both
invariants. -/
theorem frontier_enqueue_invariant (f : String → Option (List String))
    (max_pages : Nat) (visited queue links : List String)
    (s : List String × List String)
    (hq : queue.Nodup) (hdisj : ∀ u ∈ visited, u ∉ queue)
    (hsq : s.1.Nodup) (hsd : ∀ u ∈ s.2, u ∉ s.1) :
    ((enqueueLinks visited queue links).Nodup ∧
      (∀ u ∈ visited, u ∉ enqueueLinks visited queue links)) ∧
    (∀ s', crawlStep f max_pages s = .inl s' →
      s'.1.Nodup ∧ (∀ u ∈ s'.2, u ∉ s'.1)) := by
  constructor
  · exact enqueueLinks_nodup_disjoint visited links queue hq hdisj
  · intro s' hstep
    obtain ⟨sq, sv⟩ := s
    unfold crawlStep at hstep
    match hsq' : sq, hstep with
    | [], hstep => simp at hstep
    | url :: rest, hstep =>
      subst hsq'
      have hrestnd : rest.Nodup := (List.nodup_cons.mp hsq).2
      have hurlrest : url ∉ rest := (List.nodup_cons.mp hsq).1
      simp only at hstep
      split at hstep
      · split at hstep
        · rename_i hvis
          cases hstep
          refine ⟨hrestnd, fun u hu => ?_⟩
          exact fun hmem => hsd u hu (List.mem_cons_of_mem _ hmem)
        · rename_i hvis
          have hdisj' : ∀ u ∈ url :: sv, u ∉ rest := by
            intro u hu
            rcases List.mem_cons.mp hu with rfl | hu'
            · exact hurlrest
            · exact fun hmem => hsd u hu' (List.mem_cons_of_mem _ hmem)
          split at hstep
          · cases hstep
            exact enqueueLinks_nodup_disjoint (url :: sv) _ rest hrestnd hdisj'
          · cases hstep
            exact ⟨hrestnd, hdisj'⟩
      · simp at hstep

/-- Witness for C5 on a concrete crawl state. -/
theorem frontier_enqueue_invariant_witness :
    (((enqueueLinks ["a"] ["b"] ["a", "b", "c"]).Nodup ∧
      (∀ u ∈ ["a"], u ∉ enqueueLinks ["a"] ["b"] ["a", "b", "c"])) ∧
    (∀ s', crawlStep (fun _ => some ["b"]) 5 (["b"], ["a"]) = .inl s' →
      s'.1.Nodup ∧ (∀ u ∈ s'.2, u ∉ s'.1))) :=
  frontier_enqueue_invariant (fun _ => some ["b"]) 5 ["a"] ["b"] ["a", "b", "c"]
    (["b"], ["a"]) (by decide) (by decide) (by decide) (by decide)

/-- Removing a fresh URL from the unvisited set removes exactly its
weight from the measure sum. -/
theorem filter_erase_sum (F : String → Nat) (visited : List String) (url : String) :
    ∀ U : List String, U.Nodup → url ∈ U → url ∉ visited →
      ((U.filter (fun u => u ∉ (url :: visited))).map F).sum + F url =
      ((U.filter (fun u => u ∉ visited)).map F).sum := by
  intro U
  induction U with
  | nil => simp
  | cons h tU ih =>
    intro hnd hmem hnv
    have hndt : tU.Nodup := (List.nodup_cons.mp hnd).2
    rcases List.mem_cons.mp hmem with rfl | hmem'
    · have hurlnotin : url ∉ tU := (List.nodup_cons.mp hnd).1
      have hfcong : tU.filter (fun u => decide (u ∉ (url :: visited))) =
          tU.filter (fun u => decide (u ∉ visited)) := by
        apply List.filter_congr
        intro u hu
        have hne : u ≠ url := fun e => hurlnotin (e ▸ hu)
        simp [List.mem_cons, hne]
      simp only [List.filter_cons]
      rw [if_neg (by simp), if_pos (by simpa using hnv)]
      simp only [List.map_cons, List.sum_cons]
      rw [hfcong]
      omega
    · have hne : h ≠ url := by
        rintro rfl
        exact (List.nodup_cons.mp hnd).1 hmem'
      have ihh := ih hndt hmem' hnv
      by_cases hhv : h ∈ visited
      · simp only [List.filter_cons]
        rw [if_neg (by simp [hhv]), if_neg (by simp [hhv])]
        exact ihh
      · simp only [List.filter_cons]
        rw [if_pos (by simp [List.mem_cons, hne, hhv]), if_pos (by simpa using hhv)]
        simp only [List.map_cons, List.sum_cons]
        omega

/-- A loop exit returns exactly the current visited set. -/
theorem crawlStep_inr (f : String → Option (List String)) (max_pages : Nat)
    (queue visited v : List String)
    (h : crawlStep f max_pages (queue, visited) = .inr v) : v = visited := by
  unfold crawlStep at h
  match queue, h with
  | [], h => exact (Sum.inr.inj h).symm
  | url :: rest, h =>
    simp only at h
    split at h
    · split at h
      · exact absurd h (by simp)
      · split at h <;> exact absurd h (by simp)
    · exact (Sum.inr.inj h).symm

/-- One continuing crawl iteration stays inside the URL universe,
strictly decreases the measure, and respects the `max_pages` bound on
the visited set. -/
theorem crawlStep_decrease (f : String → Option (List String)) (U : List String)
    (max_pages : Nat) (hnd : U.Nodup)
    (hclosed : ∀ u ∈ U, ∀ l ∈ (f u).getD [], l ∈ U) :
    ∀ (queue visited : List String) (s' : List String × List String),
      (∀ q ∈ queue, q ∈ U) →
      crawlStep f max_pages (queue, visited) = .inl s' →
      (∀ q ∈ s'.1, q ∈ U) ∧
      crawlMeasure f U s'.1 s'.2 < crawlMeasure f U queue visited ∧
      (visited.length ≤ max_pages → s'.2.length ≤ max_pages) := by
  intro queue visited s' hsub hstep
  unfold crawlStep at hstep
  match queue, hstep with
  | [], hstep => simp at hstep
  | url :: rest, hstep =>
    have hrest : ∀ q ∈ rest, q ∈ U := fun q hq => hsub q (List.mem_cons_of_mem _ hq)
    have hurlU : url ∈ U := hsub url (List.mem_cons_self _ _)
    simp only at hstep
    split at hstep
    · rename_i hguard
      split at hstep
      · rename_i hvis
        cases hstep
        refine ⟨hrest, ?_, fun h => h⟩
        unfold crawlMeasure
        simp only [List.length_cons]
        omega
      · rename_i hvis
        have hsum := filter_erase_sum (fun u => 2 + ((f u).getD []).length)
          visited url U hnd hurlU hvis
        simp only at hsum
        split at hstep
        · rename_i links hlinks
          cases hstep
          rw [hlinks] at hsum
          simp only [Option.getD_some] at hsum
          refine ⟨?_, ?_, ?_⟩
          · intro q hq
            rcases enqueueLinks_mem _ _ _ q hq with h | h
            · exact hrest q h
            · exact hclosed url hurlU q (by rw [hlinks]; exact h)
          · have hlen := enqueueLinks_length (url :: visited) links rest
            unfold crawlMeasure
            dsimp only
            simp only [List.length_cons]
            omega
          · intro _
            simp only [List.length_cons]
            omega
        · rename_i hlinks
          cases hstep
          rw [hlinks] at hsum
          simp only [Option.getD_none, List.length_nil] at hsum
          refine ⟨hrest, ?_, ?_⟩
          · unfold crawlMeasure
            simp only [List.length_cons]
            omega
          · intro _
            simp only [List.length_cons]
            omega
    · simp at hstep

/-- With fuel exceeding the measure, the crawl loop exits and the final
visited set respects `max_pages`. -/
theorem crawlAux_total (f : String → Option (List String)) (U : List String)
    (max_pages : Nat) (hnd : U.Nodup)
    (hclosed : ∀ u ∈ U, ∀ l ∈ (f u).getD [], l ∈ U) :
    ∀ (fuel : Nat) (queue visited : List String),
      (∀ q ∈ queue, q ∈ U) → visited.length ≤ max_pages →
      crawlMeasure f U queue visited < fuel →
      ∃ v, crawlAux f max_pages fuel (queue, visited) = some v ∧
        v.length ≤ max_pages := by
  intro fuel
  induction fuel with
  | zero =>
    intro queue visited _ _ hm
    omega
  | succ n ih =>
    intro queue visited hsub hbound hm
    cases hstep : crawlStep f max_pages (queue, visited) with
    | inr v =>
      refine ⟨v, ?_, ?_⟩
      · unfold crawlAux
        rw [hstep]
      · rw [crawlStep_inr f max_pages queue visited v hstep]
        exact hbound
    | inl s' =>
      obtain ⟨h1, h2, h3⟩ :=
        crawlStep_decrease f U max_pages hnd hclosed queue visited s' hsub hstep
      obtain ⟨v, hv, hb⟩ := ih s'.1 s'.2 h1 (h3 hbound) (by omega)
      refine ⟨v, ?_, hb⟩
      unfold crawlAux
      rw [hstep]
      exact hv

/-- C4: for every finite, link-closed URL universe `U` and every
`max_pages`, the `run_scrape` BFS loop exits within the concretely
computed fuel `crawlFuel f U` and its final visited set holds at most
`max_pages` URLs; moreover every continuing loop iteration preserves
`visited.size ≤ max_pages`, so the bound holds at every point during the
crawl as well. -/
theorem run_scrape_terminates (f : String → Option (List String)) (U : List String)
    (base : String) (max_pages : Nat) (hbase : base ∈ U) (hnd : U.Nodup)
    (hclosed : ∀ u ∈ U, ∀ l ∈ (f u).getD [], l ∈ U) :
    (∃ v, crawlAux f max_pages (crawlFuel f U) ([base], []) = some v ∧
      v.length ≤ max_pages) ∧
    (∀ (queue visited : List String) (s' : List String × List String),
      visited.length ≤ max_pages →
      crawlStep f max_pages (queue, visited) = .inl s' →
      s'.2.length ≤ max_pages) := by
  constructor
  · apply crawlAux_total f U max_pages hnd hclosed
    · intro q hq
      rw [List.mem_singleton] at hq
      exact hq ▸ hbase
    · simp
    · unfold crawlMeasure crawlFuel
      have hle : ((U.filter (fun u => u ∉ ([] : List String))).map
          (fun u => 2 + ((f u).getD []).length)).sum ≤
          (U.map (fun u => 2 + ((f u).getD []).length)).sum := by
        have : U.filter (fun u => u ∉ ([] : List String)) = U := by
          simp
        rw [this]
      simp only [List.length_singleton]
      omega
  · intro queue visited s' hbound hstep
    unfold crawlStep at hstep
    match queue, hstep with
    | [], hstep => simp at hstep
    | url :: rest, hstep =>
      simp only at hstep
      split at hstep
      · rename_i hguard
        split at hstep
        · cases hstep
          exact hbound
        · split at hstep <;>
            (cases hstep; simp only [List.length_cons]; omega)
      · simp at hstep

/-- A three-page strongly connected link graph used as the C4 witness. -/
def c4Links : String → Option (List String) :=
  fun u => if u = "a" then some ["b", "a"] else if u = "b" then some ["c", "a"] else some []

/-- Witness for C4: crawling the concrete 3-node graph rooted at `"a"`
with `max_pages = 2` exits within the computed fuel and visits at most 2
pages. -/
theorem run_scrape_terminates_witness :
    ∃ v, crawlAux c4Links 2 (crawlFuel c4Links ["a", "b", "c"]) (["a"], []) = some v ∧
      v.length ≤ 2 :=
  (run_scrape_terminates c4Links ["a", "b", "c"] "a" 2
    (by decide) (by decide) (by decide)).1

/-! ### Change detection against the relational store
(`backend/scraper.py`, `run_scrape`, lines 668-722)

The relational store (`ScrapedPage` / `ScrapedImage` rows of
`database.py`) is modelled as in-memory lists; `datetime.utcnow()` is a
`now : Nat` parameter; the autoincrement id handed out by
`db_session.flush()` is the `nextId` counter. -/

/-- One extracted image of a fetched page. -/
structure ImageData where
  url : String
  altText : String
  caption : String
  contextBefore : String
  contextAfter : String
deriving DecidableEq

/-- The `page_data` dict returned by `scrape_page` for a fetched page. -/
structure PageData where
  url : String
  title : String
  content : String
  sectionName : String
  topic : String
  contentHash : String
  links : List String
  images : List ImageData
deriving DecidableEq

/-- A `ScrapedPage` row. -/
structure PageRec where
  id : Nat
  url : String
  title : String
  content : String
  sectionName : String
  topic : String
  category : String
  contentHash : String
  scrapedAt : Nat
deriving DecidableEq

/-- A `ScrapedImage` row. -/
structure ImageRec where
  pageId : Nat
  url : String
  altText : String
  caption : String
  contextBefore : String
  contextAfter : String
deriving DecidableEq

/-- The relational store: pages, images, and the next autoincrement id. -/
structure Db where
  pages : List PageRec
  images : List ImageRec
  nextId : Nat
deriving DecidableEq

/-- Build a `ScrapedImage` row for a page (lines 685-694 / 710-719). -/
def mkImageRec (pid : Nat) (im : ImageData) : ImageRec :=
  { pageId := pid, url := im.url, altText := im.altText, caption := im.caption,
    contextBefore := im.contextBefore, contextAfter := im.contextAfter }

/-- The store-in-database block of `run_scrape` (lines 670-721): look up
the existing row by URL; if found and the fingerprint changed, update the
row in place and replace its images (delete-then-reinsert); if found and
the fingerprint matches, do nothing; if not found, insert a new page row
plus its images. -/
def storeScrapedPage (db : Db) (category : String) (now : Nat) (pd : PageData) : Db :=
  match db.pages.find? (fun p => p.url == pd.url) with
  | some existing =>
    if existing.contentHash ≠ pd.contentHash then
      { db with
        pages := db.pages.map (fun p =>
          if p.id = existing.id then
            { p with
              title := pd.title,
              content := pd.content,
              sectionName := pd.sectionName,
              topic := pd.topic,
              category := category,
              contentHash := pd.contentHash,
              scrapedAt := now }
          else p),
        images := db.images.filter (fun im => im.pageId ≠ existing.id) ++
          pd.images.map (mkImageRec existing.id) }
    else db
  | none =>
    let pid := db.nextId
    { pages := db.pages ++
        [{ id := pid, url := pd.url, title := pd.title, content := pd.content,
           sectionName := pd.sectionName, topic := pd.topic, category := category,
           contentHash := pd.contentHash, scrapedAt := now }],
      images := db.images ++ pd.images.map (mkImageRec pid),
      nextId := pid + 1 }

/-- Processing one successfully fetched page: the store block followed by
`scraper_state["pages_scraped"] += 1` (line 722), which runs for every
fetched page regardless of the change-detection outcome. -/
def processFetchedPage (db : Db) (pages_scraped : Nat) (category : String)
    (now : Nat) (pd : PageData) : Db × Nat :=
  (storeScrapedPage db category now pd, pages_scraped + 1)

/-- C6: when the stored row for the fetched URL carries the same content
fingerprint, `run_scrape` leaves the relational store completely
unchanged — no page field is written and no owned image row is deleted
or reinserted — yet still increments `pages_scraped` for that URL. -/
theorem fingerprint_match_noop (db : Db) (pages_scraped : Nat)
    (category : String) (now : Nat) (pd : PageData) (p : PageRec)
    (hfind : db.pages.find? (fun q => q.url == pd.url) = some p)
    (hhash : p.contentHash = pd.contentHash) :
    processFetchedPage db pages_scraped category now pd = (db, pages_scraped + 1) := by
  unfold processFetchedPage storeScrapedPage
  rw [hfind]
  dsimp only
  rw [if_neg (by simp [hhash])]

/-- A one-page, one-image store used as the C6 witness. -/
def c6Db : Db :=
  { pages := [{ id := 1, url := "https://d/p", title := "T", content := "body",
                sectionName := "s", topic := "t", category := "windchill",
                contentHash := "h1", scrapedAt := 0 }],
    images := [{ pageId := 1, url := "https://d/i.png", altText := "a",
                 caption := "c", contextBefore := "", contextAfter := "" }],
    nextId := 2 }

/-- A re-fetch of the same page with an unchanged fingerprint but
different extracted metadata and images. -/
def c6PageData : PageData :=
  { url := "https://d/p", title := "T2", content := "body", sectionName := "s2",
    topic := "t2", contentHash := "h1", links := ["https://d/q"],
    images := [{ url := "https://d/j.png", altText := "x", caption := "",
                 contextBefore := "", contextAfter := "" }] }

/-- Witness for C6 on the concrete store. -/
theorem fingerprint_match_noop_witness :
    processFetchedPage c6Db 7 "windchill" 42 c6PageData = (c6Db, 8) :=
  fingerprint_match_noop c6Db 7 "windchill" 42 c6PageData
    { id := 1, url := "https://d/p", title := "T", content := "body",
      sectionName := "s", topic := "t", category := "windchill",
      contentHash := "h1", scrapedAt := 0 }
    (by rfl) (by rfl)

/-! ### Start endpoint guard (`backend/main.py`, `start_scraper`,
lines 642-670)

The endpoint validates the category, then reads a snapshot of the shared
crawl state; while `in_progress` is set it returns an error result
synchronously.  Spawning the background job (`start_scrape_background`)
is modelled as a boolean "job started" component of the result; the
crawl state itself is mutated only by the spawned `run_scrape` task,
never by the endpoint. -/

/-- The shared scraper state (the fields the endpoint touches). -/
structure ScraperState where
  inProgress : Bool
  progress : Nat
  statusText : String
  pagesScraped : Nat
  errors : List String
deriving DecidableEq

/-- The category keys of `DOC_CATEGORIES` in `scraper.py`. -/
def docCategoryKeys : List String :=
  ["windchill", "creo", "community-windchill", "community-creo"]

/-- The JSON result of the endpoint: its `status` field and whether a
background crawl job was spawned. -/
structure StartResult where
  status : String
  jobStarted : Bool
deriving DecidableEq

/-- Endpoint `POST /api/scraper/start` (lines 642-670 of `main.py`): reject
unknown categories, reject while a crawl is in progress, otherwise spawn
the background job.  Returns the result together with the (unchanged)
shared state. -/
def startScraper (st : ScraperState) (category : String) (max_pages : Nat) :
    StartResult × ScraperState :=
  if category ∉ docCategoryKeys then
    ({ status := "error", jobStarted := false }, st)
  else if st.inProgress then
    ({ status := "error", jobStarted := false }, st)
  else
    ({ status := "started", jobStarted := true }, st)

/-- C9: whenever the shared crawl state has `in_progress = true`, the
start endpoint returns an error result synchronously, does not spawn a
background crawl job, and leaves the crawl state untouched. -/
theorem start_scraper_busy (st : ScraperState) (category : String)
    (max_pages : Nat) (h : st.inProgress = true) :
    (startScraper st category max_pages).1.status = "error" ∧
    (startScraper st category max_pages).1.jobStarted = false ∧
    (startScraper st category max_pages).2 = st := by
  unfold startScraper
  by_cases hc : category ∉ docCategoryKeys
  · rw [if_pos hc]
    exact ⟨rfl, rfl, rfl⟩
  · rw [if_neg hc, if_pos h]
    exact ⟨rfl, rfl, rfl⟩

/-- Witness for C9 on a concrete busy state. -/
theorem start_scraper_busy_witness :
    (startScraper ⟨true, 50, "Scraping", 10, []⟩ "windchill" 500).1.status = "error" ∧
    (startScraper ⟨true, 50, "Scraping", 10, []⟩ "windchill" 500).1.jobStarted = false ∧
    (startScraper ⟨true, 50, "Scraping", 10, []⟩ "windchill" 500).2 =
      ⟨true, 50, "Scraping", 10, []⟩ :=
  start_scraper_busy ⟨true, 50, "Scraping", 10, []⟩ "windchill" 500 rfl

end WCInspector
